import Mathlib

/-!
Verification development for a small PM2.5 ingest-and-query HTTP API
(`src/app.py`): one FastAPI application over a PostgreSQL store with two
tables (`estimasi_harian`, keyed by date, and `estimasi_metadata`, keyed by
date and sub-district) and four handlers (`ingest`, `latest`, `history`,
`stats`).

Embedding choices:
* a calendar date is a `Nat` (day ordinal); date comparison in SQL
  (`ORDER BY tanggal`) matches `Nat` order;
* Python `float` values are embedded as `Rat` (all values the contract
  speaks about are exact decimals);
* a Python dict is an association list with the insertion order of its
  keys (parsed JSON objects preserve key order and have distinct keys);
* JSON response bodies are `Val` trees; the two metadata blob columns are
  stored structurally (the source serialises them with `json.dumps`, which
  is injective on the dictionaries involved, so no information is lost);
* a PostgreSQL table is a list of rows; `INSERT ... ON CONFLICT ... DO
  UPDATE SET` is an explicit upsert on that list;
* infrastructure failures (connection failure, timeout, constraint
  violation) are oracles of type `Option String`: `some e` means the
  corresponding statement raises an exception with text `e`;
* the psycopg2 scope `with get_conn() as conn, conn.cursor() as cur:`
  runs its statements in one transaction which commits on clean exit of
  the block and rolls back on an exception, so the committed state is
  produced only when every statement succeeded;
* a read handler has no `try`/`except`, so its embedding returns
  `Except String _`: `Except.error e` is an exception escaping the
  handler uncaught (the framework, not the handler, then produces a
  generic server error that does not carry the text `e`).
-/

/-- JSON-like values for response bodies and row dictionaries. -/
inductive Val where
  | vnull : Val
  | vnat : Nat → Val
  | vstr : String → Val
  | vrat : Rat → Val
  | vobj : List (String × Val) → Val
  | varr : List Val → Val
deriving Repr

/-- One row of the `estimasi_harian` table: date primary key, city label,
city-wide average, and eleven nullable sub-district columns. -/
structure DailyRow where
  tanggal : Nat
  kota : String
  rata_rata_kota : Rat
  beji : Option Rat
  bojongsari : Option Rat
  cilodong : Option Rat
  cimanggis : Option Rat
  cinere : Option Rat
  cipayung : Option Rat
  limo : Option Rat
  pancoran_mas : Option Rat
  sawangan : Option Rat
  sukmajaya : Option Rat
  tapos : Option Rat
deriving DecidableEq, Repr

/-- One row of the `estimasi_metadata` table: composite key (date,
sub-district), plus the two blob columns.  The source stores
`json.dumps(fitur)` with `fitur = {}` (always empty) and
`json.dumps(meta)`; the blobs are kept structurally here. -/
structure MetaRow where
  tanggal : Nat
  kecamatan : String
  fitur : List (String × String)
  tanggal_fitur : List (String × String)
deriving DecidableEq, Repr

/-- The ingest request body (pydantic model `PayloadAggregat`). -/
structure PayloadAggregat where
  tanggal : Nat
  kota : String := "Depok"
  estimasi : List (String × Rat)
  rata_rata_kota : Rat
  tanggal_fitur : Option (List (String × List (String × String))) := none
deriving DecidableEq, Repr

/-- The two tables of the backing store. -/
structure DBState where
  harian : List DailyRow
  metadata : List MetaRow
deriving DecidableEq, Repr

def emptyDB : DBState := { harian := [], metadata := [] }

/-- The pydantic validator `not_empty` on field `estimasi`:
`if not v: raise ValueError("estimasi kosong")`. -/
def estimasiValid (p : PayloadAggregat) : Bool :=
  !p.estimasi.isEmpty

/-- `kolom_map` from the source: human-readable sub-district name to
storage column identifier, in source order. -/
def kolom_map : List (String × String) :=
  [("Beji", "beji"), ("Bojongsari", "bojongsari"), ("Cilodong", "cilodong"),
   ("Cimanggis", "cimanggis"), ("Cinere", "cinere"), ("Cipayung", "cipayung"),
   ("Limo", "limo"), ("Pancoran Mas", "pancoran_mas"), ("Sawangan", "sawangan"),
   ("Sukmajaya", "sukmajaya"), ("Tapos", "tapos")]

/-- The eleven recognised sub-district names (the keys of `kolom_map`). -/
def knownAreaNames : List String := kolom_map.map Prod.fst

/-- The row the ingest handler builds for the `estimasi_harian` upsert:
`values = [tanggal, kota, rata_rata_kota]` followed by
`payload.estimasi.get(k)` for each key `k` of `kolom_map`
(`None` when the payload omits the name). -/
def buildRow (p : PayloadAggregat) : DailyRow :=
  { tanggal := p.tanggal
    kota := p.kota
    rata_rata_kota := p.rata_rata_kota
    beji := p.estimasi.lookup "Beji"
    bojongsari := p.estimasi.lookup "Bojongsari"
    cilodong := p.estimasi.lookup "Cilodong"
    cimanggis := p.estimasi.lookup "Cimanggis"
    cinere := p.estimasi.lookup "Cinere"
    cipayung := p.estimasi.lookup "Cipayung"
    limo := p.estimasi.lookup "Limo"
    pancoran_mas := p.estimasi.lookup "Pancoran Mas"
    sawangan := p.estimasi.lookup "Sawangan"
    sukmajaya := p.estimasi.lookup "Sukmajaya"
    tapos := p.estimasi.lookup "Tapos" }

/-- The metadata rows the ingest handler builds: one per key of the
optional `tanggal_fitur` map (`fitur` is always the empty dict in the
source), in map order; `[]` when the map is absent or empty (Python
`if payload.tanggal_fitur:` is false for both `None` and `{}`). -/
def buildMetaRows (p : PayloadAggregat) : List MetaRow :=
  match p.tanggal_fitur with
  | none => []
  | some tf =>
      tf.map (fun km => { tanggal := p.tanggal, kecamatan := km.1,
                          fitur := [], tanggal_fitur := km.2 })

/-- `INSERT INTO estimasi_harian ... ON CONFLICT (tanggal) DO UPDATE SET
c = EXCLUDED.c` for every non-key column `c`: since every non-key column
is overwritten from the incoming row and the key agrees on conflict, a
conflicting row is replaced by the incoming row; otherwise the incoming
row is appended. -/
def upsertHarian (t : List DailyRow) (r : DailyRow) : List DailyRow :=
  if t.any (fun x => x.tanggal == r.tanggal) then
    t.map (fun x => if x.tanggal == r.tanggal then r else x)
  else
    t ++ [r]

/-- Key equality for `estimasi_metadata`: the `(tanggal, kecamatan)`
composite primary key. -/
def metaKeyEq (x r : MetaRow) : Bool :=
  x.tanggal == r.tanggal && x.kecamatan == r.kecamatan

/-- One row of the metadata batch upsert: `ON CONFLICT (tanggal,
kecamatan) DO UPDATE SET fitur = EXCLUDED.fitur, tanggal_fitur =
EXCLUDED.tanggal_fitur`. -/
def upsertMetaOne (m : List MetaRow) (r : MetaRow) : List MetaRow :=
  if m.any (fun x => metaKeyEq x r) then
    m.map (fun x => if metaKeyEq x r then
             { x with fitur := r.fitur, tanggal_fitur := r.tanggal_fitur }
           else x)
  else
    m ++ [r]

/-- The batched `execute_values` upsert: the rows of the batch are applied
in order. -/
def upsertMeta (m : List MetaRow) (rs : List MetaRow) : List MetaRow :=
  rs.foldl upsertMetaOne m

/-- The transactional scope `with get_conn() as conn, conn.cursor() as
cur:` of the ingest handler.  psycopg2 commits the transaction on clean
exit of the block and rolls back on an exception, so the committed state
appears only when every statement succeeded.  `fail1` is a failure oracle
for connection acquisition together with the `estimasi_harian` upsert,
`fail2` for the metadata batch upsert (which only runs when the batch is
non-empty). -/
def runIngestTx (db : DBState) (row : DailyRow) (metaRows : List MetaRow)
    (fail1 fail2 : Option String) : Except String DBState :=
  match fail1 with
  | some e => .error e
  | none =>
      let db1 : DBState := { db with harian := upsertHarian db.harian row }
      if metaRows.isEmpty then
        .ok db1
      else
        match fail2 with
        | some e => .error e
        | none => .ok { db1 with metadata := upsertMeta db1.metadata metaRows }

/-- Outcome of the ingest endpoint as seen by the HTTP caller. -/
inductive HandlerResult where
  | success : Val → HandlerResult
  | clientError : Nat → String → HandlerResult
  | serverError : Nat → String → HandlerResult
deriving Repr

/-- The 200 body of a successful ingest:
`{"status":"ok","upserted":"estimasi_harian","meta_rows":n}`. -/
def ingestOkBody (n : Nat) : Val :=
  .vobj [("status", .vstr "ok"), ("upserted", .vstr "estimasi_harian"),
         ("meta_rows", .vnat n)]

/-- The ingest endpoint `POST /api/pm25/ingest`.  Pydantic validation runs
before the handler body: an empty `estimasi` map raises a validation
error, which FastAPI reports as a 422 client error, before any database
access (the failure oracles are never consulted).  Otherwise the handler
builds the daily row and the metadata batch, runs both upserts in one
transaction, and returns the success body; any exception in the
transactional scope is caught and re-raised as `HTTPException(500,
str(e))`. -/
def ingest (db : DBState) (p : PayloadAggregat) (fail1 fail2 : Option String) :
    DBState × HandlerResult :=
  if estimasiValid p then
    let metaRows := buildMetaRows p
    match runIngestTx db (buildRow p) metaRows fail1 fail2 with
    | .ok db2 => (db2, .success (ingestOkBody metaRows.length))
    | .error e => (db, .serverError 500 e)
  else
    (db, .clientError 422 "estimasi kosong")

/-- The descending date order used by `ORDER BY tanggal DESC`. -/
def dateGE (a b : DailyRow) : Prop := b.tanggal ≤ a.tanggal

instance : DecidableRel dateGE := fun a b => Nat.decLe b.tanggal a.tanggal

instance : IsTotal DailyRow dateGE :=
  ⟨fun a b => Nat.le_total b.tanggal a.tanggal⟩

instance : IsTrans DailyRow dateGE :=
  ⟨fun _ _ _ hab hbc => Nat.le_trans hbc hab⟩

/-- `SELECT ... FROM estimasi_harian ORDER BY tanggal DESC`: the rows of
the table sorted by date, newest first (dates are unique, so any sorted
permutation is the same up to ties). -/
def sortDesc (t : List DailyRow) : List DailyRow :=
  t.insertionSort dateGE

/-- A `DailyRow` as the column-name-to-value dictionary the read handlers
produce with `dict(zip(cols, row))`.  `latest` selects `*` and `history`
names the same fourteen columns explicitly; the table schema order is
date, city, city average, then the eleven sub-district columns. -/
def rowToDict (r : DailyRow) : List (String × Val) :=
  [("tanggal", .vnat r.tanggal), ("kota", .vstr r.kota),
   ("rata_rata_kota", .vrat r.rata_rata_kota),
   ("beji", (r.beji.map Val.vrat).getD .vnull),
   ("bojongsari", (r.bojongsari.map Val.vrat).getD .vnull),
   ("cilodong", (r.cilodong.map Val.vrat).getD .vnull),
   ("cimanggis", (r.cimanggis.map Val.vrat).getD .vnull),
   ("cinere", (r.cinere.map Val.vrat).getD .vnull),
   ("cipayung", (r.cipayung.map Val.vrat).getD .vnull),
   ("limo", (r.limo.map Val.vrat).getD .vnull),
   ("pancoran_mas", (r.pancoran_mas.map Val.vrat).getD .vnull),
   ("sawangan", (r.sawangan.map Val.vrat).getD .vnull),
   ("sukmajaya", (r.sukmajaya.map Val.vrat).getD .vnull),
   ("tapos", (r.tapos.map Val.vrat).getD .vnull)]

/-- `GET /api/pm25/latest`: `SELECT * FROM estimasi_harian ORDER BY
tanggal DESC LIMIT 1`, then `{"data": None}` when no row was fetched and
`{"data": dict(zip(cols, row))}` otherwise.  The handler has no
`try`/`except`, so a storage failure escapes it uncaught
(`Except.error`). -/
def latest (db : DBState) (fail : Option String) : Except String Val :=
  match fail with
  | some e => .error e
  | none =>
      match (sortDesc db.harian).head? with
      | none => .ok (.vobj [("data", .vnull)])
      | some r => .ok (.vobj [("data", .vobj (rowToDict r))])

/-- The rows `GET /api/pm25/history` fetches: `ORDER BY tanggal DESC
LIMIT %s` with the caller-supplied limit. -/
def historyRows (db : DBState) (limit : Nat) : List DailyRow :=
  (sortDesc db.harian).take limit

/-- `GET /api/pm25/history?limit=<int>` (default 30): the fetched rows as
column dictionaries under `"data"`.  No `try`/`except`: a storage failure
escapes the handler uncaught. -/
def history (db : DBState) (fail : Option String) (limit : Nat := 30) :
    Except String Val :=
  match fail with
  | some e => .error e
  | none =>
      .ok (.vobj [("data",
        .varr ((historyRows db limit).map (fun r => .vobj (rowToDict r))))])

/-- The aggregate row of `GET /api/pm25/stats`: `COUNT(*)`,
`AVG(rata_rata_kota)`, `MIN(rata_rata_kota)`, `MAX(rata_rata_kota)`.  On
an empty table SQL yields count 0 and NULL for the other three. -/
def statsDict (db : DBState) : List (String × Val) :=
  match db.harian.map (fun r => r.rata_rata_kota) with
  | [] =>
      [("n_hari", .vnat 0), ("pm25_avg", .vnull),
       ("pm25_min", .vnull), ("pm25_max", .vnull)]
  | v :: vs =>
      [("n_hari", .vnat db.harian.length),
       ("pm25_avg", .vrat (((v :: vs).foldl (· + ·) 0) / (db.harian.length : Rat))),
       ("pm25_min", .vrat (vs.foldl min v)),
       ("pm25_max", .vrat (vs.foldl max v))]

/-- `GET /api/pm25/stats`: the aggregate row as a dictionary under
`"data"`, passed through without special-casing emptiness.  No
`try`/`except`: a storage failure escapes the handler uncaught. -/
def stats (db : DBState) (fail : Option String) : Except String Val :=
  match fail with
  | some e => .error e
  | none => .ok (.vobj [("data", .vobj (statsDict db))])

/-- The `estimasi_harian` primary-key invariant: one row per date. -/
def HarianUnique (db : DBState) : Prop :=
  db.harian.Pairwise (fun a b => a.tanggal ≠ b.tanggal)

instance (db : DBState) : Decidable (HarianUnique db) :=
  List.instDecidablePairwise db.harian

/-- The `estimasi_metadata` primary-key invariant: one row per
(date, sub-district) pair. -/
def MetaUnique (db : DBState) : Prop :=
  db.metadata.Pairwise (fun a b => metaKeyEq a b = false)

instance (db : DBState) : Decidable (MetaUnique db) :=
  List.instDecidablePairwise db.metadata

/-- Well-formedness of a parsed payload: the keys of the optional
`tanggal_fitur` JSON object are distinct (a Python dict cannot hold a
key twice). -/
def PayloadWF (p : PayloadAggregat) : Prop :=
  (p.tanggal_fitur.getD []).Pairwise (fun a b => a.1 ≠ b.1)

instance (p : PayloadAggregat) : Decidable (PayloadWF p) :=
  List.instDecidablePairwise _

/-- The metadata table already holds exactly the incoming row at the
incoming row's key. -/
def metaSettled (m : List MetaRow) (r : MetaRow) : Prop :=
  m.any (fun x => metaKeyEq x r) = true ∧ ∀ x ∈ m, metaKeyEq x r = true → x = r

/-! ## Concrete data used to exercise the handlers -/

def pA : PayloadAggregat :=
  { tanggal := 10, estimasi := [("Beji", 1)], rata_rata_kota := 1 }

def pB : PayloadAggregat :=
  { tanggal := 10, estimasi := [("Bojongsari", 2)], rata_rata_kota := 2 }

def dbA : DBState := (ingest emptyDB pA none none).1

def pW : PayloadAggregat :=
  { tanggal := 7, estimasi := [("Cinere", 3)], rata_rata_kota := 3,
    tanggal_fitur := some [("Cinere", [("pm25", "2024-01-07")]), ("Nowhere", [])] }

def pS1 : PayloadAggregat :=
  { tanggal := 1, estimasi := [("Beji", 10)], rata_rata_kota := 10 }

def pS2 : PayloadAggregat :=
  { tanggal := 2, estimasi := [("Beji", 20)], rata_rata_kota := 20 }

def pS3 : PayloadAggregat :=
  { tanggal := 3, estimasi := [("Beji", 30)], rata_rata_kota := 30 }

def dbS : DBState :=
  (ingest (ingest (ingest emptyDB pS1 none none).1 pS2 none none).1 pS3 none none).1

/-! ## Helper lemmas about the daily-table upsert -/

theorem upsertHarian_find (t : List DailyRow) (r : DailyRow) :
    (upsertHarian t r).find? (fun x => x.tanggal == r.tanggal) = some r := by
  unfold upsertHarian
  by_cases h : t.any (fun x => x.tanggal == r.tanggal) = true
  · rw [if_pos h]
    induction t with
    | nil => simp at h
    | cons x xs ih =>
        rw [List.map_cons]
        by_cases hx : (x.tanggal == r.tanggal) = true
        · rw [if_pos hx]
          exact List.find?_cons_of_pos _ (by simp)
        · rw [if_neg hx,
            List.find?_cons_of_neg (p := fun y : DailyRow => y.tanggal == r.tanggal) _ hx]
          exact ih (by simpa [hx] using h)
  · rw [if_neg h]
    rw [Bool.not_eq_true, List.any_eq_false] at h
    induction t with
    | nil => exact List.find?_cons_of_pos _ (by simp)
    | cons x xs ih =>
        rw [List.cons_append,
          List.find?_cons_of_neg (p := fun y : DailyRow => y.tanggal == r.tanggal) _ (h x (by simp))]
        exact ih (fun y hy => h y (by simp [hy]))

theorem upsertHarian_mem_matches (t : List DailyRow) (r x : DailyRow)
    (hx : x ∈ upsertHarian t r) (hm : x.tanggal = r.tanggal) : x = r := by
  unfold upsertHarian at hx
  by_cases h : t.any (fun y => y.tanggal == r.tanggal) = true
  · rw [if_pos h, List.mem_map] at hx
    obtain ⟨y, hy, hyx⟩ := hx
    by_cases hyr : (y.tanggal == r.tanggal) = true
    · rw [if_pos hyr] at hyx
      exact hyx.symm
    · rw [if_neg hyr] at hyx
      subst hyx
      exact absurd (beq_of_eq hm) hyr
  · rw [if_neg h, List.mem_append] at hx
    rcases hx with hx | hx
    · rw [Bool.not_eq_true, List.any_eq_false] at h
      exact absurd (beq_of_eq hm) (h x hx)
    · simpa using hx

theorem upsertHarian_contains (t : List DailyRow) (r : DailyRow) :
    (upsertHarian t r).any (fun x => x.tanggal == r.tanggal) = true := by
  unfold upsertHarian
  by_cases h : t.any (fun x => x.tanggal == r.tanggal) = true
  · rw [if_pos h]
    rw [List.any_eq_true] at h ⊢
    obtain ⟨x, hx, hxr⟩ := h
    exact ⟨r, List.mem_map.2 ⟨x, hx, by rw [if_pos hxr]⟩, by simp⟩
  · rw [if_neg h, List.any_eq_true]
    exact ⟨r, by simp, by simp⟩

/-- A second upsert of a row whose date already maps to exactly that row
changes nothing. -/
theorem upsertHarian_of_settled (u : List DailyRow) (r : DailyRow)
    (hc : u.any (fun x => x.tanggal == r.tanggal) = true)
    (hmem : ∀ x ∈ u, x.tanggal = r.tanggal → x = r) :
    upsertHarian u r = u := by
  unfold upsertHarian
  rw [if_pos hc]
  have hcongr : List.map (fun x => if x.tanggal == r.tanggal then r else x) u
      = List.map (fun x => x) u :=
    List.map_congr_left (fun x hx => by
      show (if (x.tanggal == r.tanggal) = true then r else x) = x
      by_cases hm : (x.tanggal == r.tanggal) = true
      · rw [if_pos hm, hmem x hx (by simpa using hm)]
      · rw [if_neg hm])
  rw [hcongr]
  simp

theorem upsertHarian_idem (t : List DailyRow) (r : DailyRow) :
    upsertHarian (upsertHarian t r) r = upsertHarian t r :=
  upsertHarian_of_settled _ r (upsertHarian_contains t r)
    (upsertHarian_mem_matches t r)

theorem upsertHarian_filter (t : List DailyRow) (r : DailyRow)
    (hu : t.Pairwise (fun a b => a.tanggal ≠ b.tanggal)) :
    (upsertHarian t r).filter (fun x => x.tanggal == r.tanggal) = [r] := by
  unfold upsertHarian
  by_cases h : t.any (fun x => x.tanggal == r.tanggal) = true
  · rw [if_pos h]
    induction t with
    | nil => simp at h
    | cons x xs ih =>
        rw [List.pairwise_cons] at hu
        rw [List.map_cons]
        by_cases hx : (x.tanggal == r.tanggal) = true
        · rw [if_pos hx]
          have hnone : ∀ y ∈ xs, ¬ (y.tanggal == r.tanggal) = true := by
            intro y hy hc
            exact hu.1 y hy (by
              rw [show x.tanggal = r.tanggal from by simpa using hx]
              exact (show y.tanggal = r.tanggal from by simpa using hc).symm)
          have hmapeq : xs.map (fun y => if y.tanggal == r.tanggal then r else y) = xs := by
            have hcongr := List.map_congr_left (l := xs)
              (f := fun y => if y.tanggal == r.tanggal then r else y)
              (g := fun y => y) (fun y hy => by
                show (if (y.tanggal == r.tanggal) = true then r else y) = y
                rw [if_neg (hnone y hy)])
            rw [hcongr]
            simp
          rw [hmapeq, List.filter_cons_of_pos (by simp)]
          rw [List.filter_eq_nil_iff.2 hnone]
        · rw [if_neg hx,
            List.filter_cons_of_neg (p := fun y : DailyRow => y.tanggal == r.tanggal) hx]
          exact ih hu.2 (by simpa [hx] using h)
  · rw [if_neg h]
    rw [Bool.not_eq_true, List.any_eq_false] at h
    rw [List.filter_append, List.filter_eq_nil_iff.2 h]
    simp

/-! ## Helper lemmas about the metadata batch upsert -/

theorem metaKeyEq_refl (r : MetaRow) : metaKeyEq r r = true := by
  simp [metaKeyEq]

theorem metaKeyEq_symm (a b : MetaRow) : metaKeyEq a b = metaKeyEq b a := by
  unfold metaKeyEq
  rw [Bool.eq_iff_iff]
  simp only [Bool.and_eq_true, beq_iff_eq]
  exact ⟨fun h => ⟨h.1.symm, h.2.symm⟩, fun h => ⟨h.1.symm, h.2.symm⟩⟩

theorem upd_eq_of_keyEq (x r : MetaRow) (h : metaKeyEq x r = true) :
    { x with fitur := r.fitur, tanggal_fitur := r.tanggal_fitur } = r := by
  obtain ⟨h1, h2⟩ : x.tanggal = r.tanggal ∧ x.kecamatan = r.kecamatan := by
    simpa [metaKeyEq] using h
  cases x
  cases r
  simp_all

theorem upsertMetaOne_of_settled (m : List MetaRow) (r : MetaRow)
    (h : metaSettled m r) : upsertMetaOne m r = m := by
  unfold upsertMetaOne
  rw [if_pos h.1]
  have hcongr := List.map_congr_left (l := m)
    (f := fun x => if metaKeyEq x r then
        { x with fitur := r.fitur, tanggal_fitur := r.tanggal_fitur } else x)
    (g := fun x => x) (fun x hx => by
      show (if metaKeyEq x r then
        { x with fitur := r.fitur, tanggal_fitur := r.tanggal_fitur } else x) = x
      by_cases hm : metaKeyEq x r = true
      · rw [if_pos hm, upd_eq_of_keyEq x r hm, h.2 x hx hm]
      · rw [if_neg hm])
  rw [hcongr]
  simp

theorem metaSettled_upsertMetaOne_self (m : List MetaRow) (r : MetaRow) :
    metaSettled (upsertMetaOne m r) r := by
  unfold upsertMetaOne
  by_cases h : m.any (fun x => metaKeyEq x r) = true
  · rw [if_pos h]
    constructor
    · rw [List.any_eq_true] at h ⊢
      obtain ⟨x, hx, hxr⟩ := h
      refine ⟨{ x with fitur := r.fitur, tanggal_fitur := r.tanggal_fitur },
        List.mem_map.2 ⟨x, hx, by rw [if_pos hxr]⟩, ?_⟩
      simpa [metaKeyEq] using hxr
    · intro y hy hyr
      rw [List.mem_map] at hy
      obtain ⟨x, hx, hxy⟩ := hy
      by_cases hxr : metaKeyEq x r = true
      · rw [if_pos hxr] at hxy
        rw [← hxy]
        exact upd_eq_of_keyEq x r hxr
      · rw [if_neg hxr] at hxy
        subst hxy
        exact absurd hyr hxr
  · rw [if_neg h]
    constructor
    · rw [List.any_eq_true]
      exact ⟨r, by simp, metaKeyEq_refl r⟩
    · intro y hy hyr
      rw [List.mem_append] at hy
      rcases hy with hy | hy
      · rw [Bool.not_eq_true, List.any_eq_false] at h
        exact absurd hyr (h y hy)
      · simpa using hy

theorem metaSettled_upsertMetaOne_other (m : List MetaRow) (r s : MetaRow)
    (hk : metaKeyEq r s = false) (h : metaSettled m r) :
    metaSettled (upsertMetaOne m s) r := by
  obtain ⟨h1, h2⟩ := h
  unfold upsertMetaOne
  by_cases hs : m.any (fun x => metaKeyEq x s) = true
  · rw [if_pos hs]
    constructor
    · rw [List.any_eq_true] at h1 ⊢
      obtain ⟨x, hx, hxr⟩ := h1
      refine ⟨if metaKeyEq x s then
          { x with fitur := s.fitur, tanggal_fitur := s.tanggal_fitur } else x,
        List.mem_map.2 ⟨x, hx, rfl⟩, ?_⟩
      by_cases hxs : metaKeyEq x s = true
      · rw [if_pos hxs]
        simpa [metaKeyEq] using hxr
      · rw [if_neg hxs]
        exact hxr
    · intro y hy hyr
      rw [List.mem_map] at hy
      obtain ⟨x, hx, hxy⟩ := hy
      by_cases hxs : metaKeyEq x s = true
      · rw [if_pos hxs] at hxy
        have hxr : metaKeyEq x r = true := by
          rw [← hxy] at hyr
          simpa [metaKeyEq] using hyr
        have hx_eq : x = r := h2 x hx hxr
        rw [hx_eq] at hxs
        simp [hk] at hxs
      · rw [if_neg hxs] at hxy
        subst hxy
        exact h2 x hx hyr
  · rw [if_neg hs]
    constructor
    · rw [List.any_eq_true] at h1 ⊢
      obtain ⟨x, hx, hxr⟩ := h1
      exact ⟨x, by simp [hx], hxr⟩
    · intro y hy hyr
      rw [List.mem_append] at hy
      rcases hy with hy | hy
      · exact h2 y hy hyr
      · rw [List.mem_singleton] at hy
        subst hy
        rw [metaKeyEq_symm] at hyr
        simp [hk] at hyr

theorem metaSettled_upsertMeta_other (m : List MetaRow) (rs : List MetaRow)
    (r : MetaRow) (h : metaSettled m r) (hks : ∀ s ∈ rs, metaKeyEq r s = false) :
    metaSettled (upsertMeta m rs) r := by
  induction rs generalizing m with
  | nil => exact h
  | cons s rs ih =>
      exact ih (upsertMetaOne m s)
        (metaSettled_upsertMetaOne_other m r s (hks s (by simp)) h)
        (fun x hx => hks x (by simp [hx]))

theorem metaSettled_upsertMeta (m : List MetaRow) (rs : List MetaRow)
    (hd : rs.Pairwise (fun a b => metaKeyEq a b = false)) :
    ∀ r ∈ rs, metaSettled (upsertMeta m rs) r := by
  induction rs generalizing m with
  | nil =>
      intro r hr
      simp at hr
  | cons s rs ih =>
      rw [List.pairwise_cons] at hd
      intro r hr
      rcases List.mem_cons.1 hr with rfl | hr
      · exact metaSettled_upsertMeta_other _ rs r
          (metaSettled_upsertMetaOne_self m r) hd.1
      · exact ih (upsertMetaOne m s) hd.2 r hr

theorem upsertMeta_noop (m : List MetaRow) (rs : List MetaRow)
    (h : ∀ r ∈ rs, metaSettled m r) : upsertMeta m rs = m := by
  induction rs with
  | nil => rfl
  | cons s rs ih =>
      show upsertMeta (upsertMetaOne m s) rs = m
      rw [upsertMetaOne_of_settled m s (h s (by simp))]
      exact ih (fun r hr => h r (by simp [hr]))

theorem upsertMeta_idem (m : List MetaRow) (rs : List MetaRow)
    (hd : rs.Pairwise (fun a b => metaKeyEq a b = false)) :
    upsertMeta (upsertMeta m rs) rs = upsertMeta m rs :=
  upsertMeta_noop _ _ (metaSettled_upsertMeta m rs hd)

/-! ## Helper lemmas about the descending sort -/

theorem sortDesc_sorted (t : List DailyRow) : (sortDesc t).Sorted dateGE :=
  List.sorted_insertionSort dateGE t

theorem sortDesc_perm (t : List DailyRow) : (sortDesc t).Perm t :=
  List.perm_insertionSort dateGE t

theorem sortDesc_pairwise_ne (t : List DailyRow)
    (hu : t.Pairwise (fun a b => a.tanggal ≠ b.tanggal)) :
    (sortDesc t).Pairwise (fun a b => a.tanggal ≠ b.tanggal) :=
  ((sortDesc_perm t).pairwise_iff (fun hab => Ne.symm hab)).2 hu

theorem sortDesc_strict (t : List DailyRow)
    (hu : t.Pairwise (fun a b => a.tanggal ≠ b.tanggal)) :
    (sortDesc t).Pairwise (fun a b => b.tanggal < a.tanggal) :=
  ((sortDesc_sorted t).and (sortDesc_pairwise_ne t hu)).imp
    (fun hab => Nat.lt_of_le_of_ne hab.1 (Ne.symm hab.2))

/-! ## The successful ingest path -/

theorem ingest_success_state (db : DBState) (p : PayloadAggregat)
    (hv : estimasiValid p = true) :
    (ingest db p none none).1
      = { harian := upsertHarian db.harian (buildRow p),
          metadata := upsertMeta db.metadata (buildMetaRows p) } ∧
    (ingest db p none none).2 = .success (ingestOkBody (buildMetaRows p).length) := by
  unfold ingest runIngestTx
  rw [if_pos hv]
  by_cases hm : (buildMetaRows p).isEmpty = true
  · rw [List.isEmpty_iff] at hm
    simp [hm, upsertMeta]
  · rw [Bool.not_eq_true] at hm
    simp [hm]

theorem ingest_meta_failure (db : DBState) (p : PayloadAggregat) (e : String)
    (hv : estimasiValid p = true) (hm : buildMetaRows p ≠ []) :
    ingest db p none (some e) = (db, .serverError 500 e) := by
  have hmm : ¬ (buildMetaRows p).isEmpty = true := by
    simpa [List.isEmpty_iff] using hm
  unfold ingest
  rw [if_pos hv]
  dsimp only
  unfold runIngestTx
  dsimp only
  rw [if_neg hmm]

/-! ## Miscellaneous helper lemmas -/

theorem lookup_cons_of_ne {β : Type} (a k : String) (v : β)
    (es : List (String × β)) (h : ¬ a = k) :
    List.lookup a ((k, v) :: es) = List.lookup a es := by
  have hbeq : (a == k) = false := beq_eq_false_iff_ne.2 h
  simp [List.lookup, hbeq]

theorem buildMetaRows_keys_distinct (p : PayloadAggregat) (hwf : PayloadWF p) :
    (buildMetaRows p).Pairwise (fun a b => metaKeyEq a b = false) := by
  unfold PayloadWF at hwf
  cases htf : p.tanggal_fitur with
  | none => simp [buildMetaRows, htf]
  | some tf =>
      rw [htf] at hwf
      simp only [Option.getD_some] at hwf
      simp only [buildMetaRows, htf]
      refine List.Pairwise.map _ ?_ hwf
      intro a b hab
      simp [metaKeyEq, hab]

theorem foldl_min_mem (v : Rat) (vs : List Rat) : vs.foldl min v ∈ v :: vs := by
  induction vs generalizing v with
  | nil => simp
  | cons w ws ih =>
      show ws.foldl min (min v w) ∈ v :: w :: ws
      rcases List.mem_cons.1 (ih (min v w)) with h | h
      · rw [h]
        rcases min_choice v w with hm | hm <;> rw [hm] <;> simp
      · simp [h]

theorem foldl_min_le (v : Rat) (vs : List Rat) :
    ∀ x ∈ v :: vs, vs.foldl min v ≤ x := by
  induction vs generalizing v with
  | nil =>
      intro x hx
      rw [List.mem_singleton] at hx
      simp [hx]
  | cons w ws ih =>
      intro x hx
      show ws.foldl min (min v w) ≤ x
      rcases List.mem_cons.1 hx with h | hx
      · rw [h]
        exact le_trans (ih (min v w) _ (by simp)) (min_le_left v w)
      · rcases List.mem_cons.1 hx with h | hx
        · rw [h]
          exact le_trans (ih (min v w) _ (by simp)) (min_le_right v w)
        · exact ih (min v w) x (by simp [hx])

theorem foldl_max_mem (v : Rat) (vs : List Rat) : vs.foldl max v ∈ v :: vs := by
  induction vs generalizing v with
  | nil => simp
  | cons w ws ih =>
      show ws.foldl max (max v w) ∈ v :: w :: ws
      rcases List.mem_cons.1 (ih (max v w)) with h | h
      · rw [h]
        rcases max_choice v w with hm | hm <;> rw [hm] <;> simp
      · simp [h]

theorem foldl_max_ge (v : Rat) (vs : List Rat) :
    ∀ x ∈ v :: vs, x ≤ vs.foldl max v := by
  induction vs generalizing v with
  | nil =>
      intro x hx
      rw [List.mem_singleton] at hx
      simp [hx]
  | cons w ws ih =>
      intro x hx
      show x ≤ ws.foldl max (max v w)
      rcases List.mem_cons.1 hx with h | hx
      · rw [h]
        exact le_trans (le_max_left v w) (ih (max v w) _ (by simp))
      · rcases List.mem_cons.1 hx with h | hx
        · rw [h]
          exact le_trans (le_max_right v w) (ih (max v w) _ (by simp))
        · exact ih (max v w) x (by simp [hx])

/-! ## Claim theorems -/

/-- C1: ingesting a payload for a date that already has a stored row
replaces every non-key column of that row with the values built from the
new payload alone, so a known area absent from the new estimate map is
stored as null: the row found for that date afterwards is exactly
`buildRow p` — full replacement, not a merge. -/
theorem ingest_overwrites_row (db : DBState) (p : PayloadAggregat)
    (hv : estimasiValid p = true)
    (hex : ∃ r ∈ db.harian, r.tanggal = p.tanggal) :
    (ingest db p none none).1.harian.find?
      (fun x => x.tanggal == p.tanggal) = some (buildRow p) := by
  clear hex
  rw [(ingest_success_state db p hv).1]
  exact upsertHarian_find db.harian (buildRow p)

/-- Witness for C1: date 10 ingested with Beji = 1, then re-ingested with
Bojongsari = 2; the stored row now has Beji null and Bojongsari 2. -/
theorem ingest_overwrites_row_witness :
    estimasiValid pB = true ∧ (∃ r ∈ dbA.harian, r.tanggal = pB.tanggal) ∧
    (ingest dbA pB none none).1.harian.find?
      (fun x => x.tanggal == pB.tanggal) = some (buildRow pB) ∧
    (buildRow pB).beji = none ∧ (buildRow pB).bojongsari = some 2 :=
  ⟨by decide, by decide,
   ingest_overwrites_row dbA pB (by decide) (by decide),
   by decide, by decide⟩

/-- C3: an ingest whose `estimasi` map is empty is rejected by payload
validation as a 422 client error (4xx, not 5xx) before any database
access: the result does not depend on the storage failure oracles and the
store is returned unchanged, so no storage write occurs. -/
theorem ingest_empty_estimasi_rejected (db : DBState) (p : PayloadAggregat)
    (he : p.estimasi = []) (f1 f2 : Option String) :
    ingest db p f1 f2 = (db, .clientError 422 "estimasi kosong") ∧
    (ingest db p f1 f2).1 = db ∧ 400 ≤ 422 ∧ 422 < 500 := by
  have hval : ¬ estimasiValid p = true := by simp [estimasiValid, he]
  unfold ingest
  rw [if_neg hval]
  exact ⟨rfl, rfl, by norm_num, by norm_num⟩

/-- Witness for C3: the empty-map payload is rejected with the store
untouched even when both failure oracles are armed. -/
theorem ingest_empty_estimasi_rejected_witness :
    ({ tanggal := 5, estimasi := [], rata_rata_kota := 0 } : PayloadAggregat).estimasi
      = [] ∧
    (ingest emptyDB { tanggal := 5, estimasi := [], rata_rata_kota := 0 }
        (some "boom") (some "boom2")
      = (emptyDB, .clientError 422 "estimasi kosong") ∧
     (ingest emptyDB { tanggal := 5, estimasi := [], rata_rata_kota := 0 }
        (some "boom") (some "boom2")).1 = emptyDB ∧ 400 ≤ 422 ∧ 422 < 500) :=
  ⟨rfl, ingest_empty_estimasi_rejected emptyDB _ rfl (some "boom") (some "boom2")⟩

/-- C9: a successful ingest responds with exactly
`{"status":"ok","upserted":"estimasi_harian","meta_rows":n}` where `n` is
the number of metadata rows written — the number of keys of the payload's
`tanggal_fitur` map, 0 when the map is absent or empty. -/
theorem ingest_response_shape (db : DBState) (p : PayloadAggregat)
    (hv : estimasiValid p = true) :
    (ingest db p none none).2 = .success (.vobj
      [("status", .vstr "ok"), ("upserted", .vstr "estimasi_harian"),
       ("meta_rows", .vnat (buildMetaRows p).length)]) ∧
    (buildMetaRows p).length = (p.tanggal_fitur.getD []).length := by
  refine ⟨(ingest_success_state db p hv).2, ?_⟩
  cases htf : p.tanggal_fitur with
  | none => simp [buildMetaRows, htf]
  | some tf => simp [buildMetaRows, htf]

/-- Witness for C9: a payload with a two-key metadata map (one key not a
recognised area) reports `meta_rows = 2`. -/
theorem ingest_response_shape_witness :
    estimasiValid pW = true ∧ (buildMetaRows pW).length = 2 ∧
    ((ingest emptyDB pW none none).2 = .success (.vobj
      [("status", .vstr "ok"), ("upserted", .vstr "estimasi_harian"),
       ("meta_rows", .vnat (buildMetaRows pW).length)]) ∧
     (buildMetaRows pW).length = (pW.tanggal_fitur.getD []).length) :=
  ⟨by decide, by decide, ingest_response_shape emptyDB pW (by decide)⟩

/-- C10: both upserts of an ingest run inside one transactional connection
scope that commits only on clean exit, so any storage error leaves the
whole store unchanged; in particular a failure of the metadata batch
upsert rolls the daily upsert back — there is no state with the daily row
committed but the metadata rows missing. -/
theorem ingest_atomic (db : DBState) (p : PayloadAggregat)
    (f1 f2 : Option String) :
    (∀ c e, (ingest db p f1 f2).2 = .serverError c e →
      (ingest db p f1 f2).1 = db) ∧
    (∀ e, estimasiValid p = true → buildMetaRows p ≠ [] →
      ingest db p none (some e) = (db, .serverError 500 e)) := by
  constructor
  · intro c e h
    unfold ingest at h ⊢
    by_cases hv : estimasiValid p = true
    · rw [if_pos hv] at h ⊢
      dsimp only at h ⊢
      cases htx : runIngestTx db (buildRow p) (buildMetaRows p) f1 f2 with
      | ok db2 =>
          rw [htx] at h
          simp at h
      | error e2 =>
          rfl
    · rw [if_neg hv] at h
      simp at h
  · intro e hv hm
    exact ingest_meta_failure db p e hv hm

/-- Witness for C10: with the metadata batch armed to fail, an ingest that
would write one daily row and two metadata rows leaves the empty store
empty and reports the error. -/
theorem ingest_atomic_witness :
    estimasiValid pW = true ∧ buildMetaRows pW ≠ [] ∧
    ingest emptyDB pW none (some "meta failure")
      = (emptyDB, .serverError 500 "meta failure") :=
  ⟨by decide, by decide,
   (ingest_atomic emptyDB pW none (some "meta failure")).2 "meta failure"
     (by decide) (by decide)⟩

/-- C2: ingest is idempotent per date: under the primary-key invariant of
the daily table and well-formedness of the payload's metadata map,
ingesting the same payload twice leaves exactly the state of ingesting it
once, and that state stores exactly one row for the payload's date — the
row holding the payload's values. -/
theorem ingest_idempotent (db : DBState) (p : PayloadAggregat)
    (hu : HarianUnique db) (hwf : PayloadWF p) (hv : estimasiValid p = true) :
    (ingest (ingest db p none none).1 p none none).1 = (ingest db p none none).1 ∧
    (ingest db p none none).1.harian.filter (fun x => x.tanggal == p.tanggal)
      = [buildRow p] := by
  obtain ⟨hs1, -⟩ := ingest_success_state db p hv
  have hkeys := buildMetaRows_keys_distinct p hwf
  constructor
  · obtain ⟨hs2, -⟩ := ingest_success_state (ingest db p none none).1 p hv
    rw [hs2, hs1]
    dsimp only
    rw [upsertHarian_idem, upsertMeta_idem _ _ hkeys]
  · rw [hs1]
    exact upsertHarian_filter db.harian (buildRow p) hu

/-- Witness for C2: re-ingesting the payload of date 7 leaves the store
exactly as after the first ingest, which holds one row for date 7. -/
theorem ingest_idempotent_witness :
    HarianUnique emptyDB ∧ PayloadWF pW ∧ estimasiValid pW = true ∧
    ((ingest (ingest emptyDB pW none none).1 pW none none).1
        = (ingest emptyDB pW none none).1 ∧
     (ingest emptyDB pW none none).1.harian.filter
        (fun x => x.tanggal == pW.tanggal) = [buildRow pW]) :=
  ⟨by decide, by decide, by decide,
   ingest_idempotent emptyDB pW (by decide) (by decide) (by decide)⟩

/-- C4: estimate-map keys outside the eleven recognised names are ignored
when the daily row is built — prepending an unknown-named entry changes
nothing and the ingest still succeeds — while every key of
`tanggal_fitur`, recognised or not, yields exactly one metadata row keyed
on (date, area). -/
theorem ingest_ignores_unknown_areas (db : DBState) (p : PayloadAggregat)
    (k : String) (v : Rat) (hk : k ∉ knownAreaNames)
    (hv : estimasiValid p = true) :
    buildRow { p with estimasi := (k, v) :: p.estimasi } = buildRow p ∧
    (ingest db { p with estimasi := (k, v) :: p.estimasi } none none).2
      = .success (ingestOkBody (buildMetaRows p).length) ∧
    (buildMetaRows p).map (fun m => (m.tanggal, m.kecamatan))
      = (p.tanggal_fitur.getD []).map (fun km => (p.tanggal, km.1)) := by
  simp only [knownAreaNames, kolom_map, List.map_cons, List.map_nil,
    List.mem_cons, List.not_mem_nil, or_false, not_or] at hk
  obtain ⟨h1, h2, h3, h4, h5, h6, h7, h8, h9, h10, h11⟩ := hk
  obtain ⟨t, kota, es, rrk, tf⟩ := p
  refine ⟨?_, ?_, ?_⟩
  · simp only [buildRow]
    rw [lookup_cons_of_ne _ k v es (Ne.symm h1),
        lookup_cons_of_ne _ k v es (Ne.symm h2),
        lookup_cons_of_ne _ k v es (Ne.symm h3),
        lookup_cons_of_ne _ k v es (Ne.symm h4),
        lookup_cons_of_ne _ k v es (Ne.symm h5),
        lookup_cons_of_ne _ k v es (Ne.symm h6),
        lookup_cons_of_ne _ k v es (Ne.symm h7),
        lookup_cons_of_ne _ k v es (Ne.symm h8),
        lookup_cons_of_ne _ k v es (Ne.symm h9),
        lookup_cons_of_ne _ k v es (Ne.symm h10),
        lookup_cons_of_ne _ k v es (Ne.symm h11)]
  · exact (ingest_success_state db _ (by simp [estimasiValid])).2
  · cases tf with
    | none => rfl
    | some l => simp [buildMetaRows]

/-- Witness for C4: prepending an entry for the unrecognised name
"Atlantis" leaves the built row unchanged, the ingest still succeeds, and
the metadata rows still cover both keys of `tanggal_fitur` (including the
unrecognised "Nowhere"). -/
theorem ingest_ignores_unknown_areas_witness :
    "Atlantis" ∉ knownAreaNames ∧ estimasiValid pW = true ∧
    (buildRow { pW with estimasi := ("Atlantis", 9) :: pW.estimasi }
        = buildRow pW ∧
     (ingest emptyDB { pW with estimasi := ("Atlantis", 9) :: pW.estimasi }
        none none).2 = .success (ingestOkBody (buildMetaRows pW).length) ∧
     (buildMetaRows pW).map (fun m => (m.tanggal, m.kecamatan))
       = (pW.tanggal_fitur.getD []).map (fun km => (pW.tanggal, km.1))) :=
  ⟨by decide, by decide,
   ingest_ignores_unknown_areas emptyDB pW "Atlantis" 9 (by decide) (by decide)⟩

/-- C6: `latest` takes no parameter beyond the store; on an empty table it
returns the explicit `{"data": null}` marker rather than an error, and on
a non-empty table it returns, as a field-name-to-value mapping, the single
stored row whose date dominates every stored date. -/
theorem latest_spec (db : DBState) (hu : HarianUnique db) :
    (db.harian = [] → latest db none = .ok (.vobj [("data", .vnull)])) ∧
    (db.harian ≠ [] → ∃ r, r ∈ db.harian ∧
      (∀ x ∈ db.harian, x.tanggal ≤ r.tanggal) ∧
      (∀ x ∈ db.harian, x.tanggal = r.tanggal → x = r) ∧
      latest db none = .ok (.vobj [("data", .vobj (rowToDict r))])) := by
  constructor
  · intro he
    have h0 : sortDesc db.harian = [] := by
      rw [he]
      rfl
    simp [latest, h0]
  · intro hne
    have hperm := sortDesc_perm db.harian
    cases hs : sortDesc db.harian with
    | nil =>
        rw [hs] at hperm
        exact absurd hperm.symm.eq_nil hne
    | cons r rest =>
        rw [hs] at hperm
        have hsort := sortDesc_sorted db.harian
        rw [hs] at hsort
        refine ⟨r, ?_, ?_, ?_, ?_⟩
        · exact hperm.mem_iff.1 (List.mem_cons_self r rest)
        · intro x hx
          rcases List.mem_cons.1 (hperm.mem_iff.2 hx) with h | h
          · rw [h]
          · exact List.rel_of_sorted_cons hsort x h
        · intro x hx heq
          by_cases hxr : x = r
          · exact hxr
          · exact absurd heq
              (List.Pairwise.forall (fun _ _ hab => Ne.symm hab) hu hx
                (hperm.mem_iff.1 (List.mem_cons_self r rest)) hxr)
        · simp [latest, hs]

/-- Witness for C6: after the three ingests of dates 1, 2, 3, `latest`
returns the date-3 row. -/
theorem latest_spec_witness :
    HarianUnique dbS ∧ dbS.harian ≠ [] ∧ ∃ r, r ∈ dbS.harian ∧
      (∀ x ∈ dbS.harian, x.tanggal ≤ r.tanggal) ∧
      (∀ x ∈ dbS.harian, x.tanggal = r.tanggal → x = r) ∧
      latest dbS none = .ok (.vobj [("data", .vobj (rowToDict r))]) :=
  ⟨by decide, by decide, (latest_spec dbS (by decide)).2 (by decide)⟩

/-- C7: for every store and caller-supplied limit, `history` returns at
most `limit` rows, ordered by strictly descending date, each a projection
of a stored row onto the fixed column list; an empty table yields the
empty sequence, never an error. -/
theorem history_spec (db : DBState) (limit : Nat) (hu : HarianUnique db) :
    (historyRows db limit).length ≤ limit ∧
    (historyRows db limit).Pairwise (fun a b => b.tanggal < a.tanggal) ∧
    (∀ r ∈ historyRows db limit, r ∈ db.harian) ∧
    (db.harian = [] → historyRows db limit = []) ∧
    history db none limit = .ok (.vobj [("data",
      .varr ((historyRows db limit).map (fun r => .vobj (rowToDict r))))]) := by
  refine ⟨?_, ?_, ?_, ?_, rfl⟩
  · unfold historyRows
    simp [List.length_take]
  · exact List.Pairwise.sublist (List.take_sublist _ _)
      (sortDesc_strict db.harian hu)
  · intro r hr
    exact (sortDesc_perm db.harian).mem_iff.1
      ((List.take_sublist _ _).subset hr)
  · intro he
    unfold historyRows
    rw [show sortDesc db.harian = [] from by rw [he]; rfl]
    exact List.take_nil

/-- Witness for C7: with three stored dates and limit 2, `history` returns
exactly the two newest dates, 3 then 2. -/
theorem history_spec_witness :
    HarianUnique dbS ∧
    (historyRows dbS 2).map (fun r => r.tanggal) = [3, 2] ∧
    ((historyRows dbS 2).length ≤ 2 ∧
     (historyRows dbS 2).Pairwise (fun a b => b.tanggal < a.tanggal) ∧
     (∀ r ∈ historyRows dbS 2, r ∈ dbS.harian) ∧
     (dbS.harian = [] → historyRows dbS 2 = []) ∧
     history dbS none 2 = .ok (.vobj [("data",
       .varr ((historyRows dbS 2).map (fun r => .vobj (rowToDict r))))])) :=
  ⟨by decide, by decide, history_spec dbS 2 (by decide)⟩

/-- C8: `stats` returns one record with the count of stored days and the
mean, minimum and maximum of the city-average column across all rows; on
an empty table it returns count 0 and null for mean/min/max, passed
through without special-casing; and after ingesting city averages 10, 20,
30 on three distinct dates it returns n_hari = 3, avg = 20, min = 10,
max = 30. -/
theorem stats_spec (db : DBState) :
    (db.harian = [] → stats db none = .ok (.vobj [("data", .vobj
      [("n_hari", .vnat 0), ("pm25_avg", .vnull), ("pm25_min", .vnull),
       ("pm25_max", .vnull)])])) ∧
    (db.harian ≠ [] → ∃ qavg qmin qmax : Rat,
      stats db none = .ok (.vobj [("data", .vobj
        [("n_hari", .vnat db.harian.length), ("pm25_avg", .vrat qavg),
         ("pm25_min", .vrat qmin), ("pm25_max", .vrat qmax)])]) ∧
      qavg * (db.harian.length : Rat)
        = (db.harian.map (fun r => r.rata_rata_kota)).sum ∧
      qmin ∈ db.harian.map (fun r => r.rata_rata_kota) ∧
      (∀ x ∈ db.harian.map (fun r => r.rata_rata_kota), qmin ≤ x) ∧
      qmax ∈ db.harian.map (fun r => r.rata_rata_kota) ∧
      (∀ x ∈ db.harian.map (fun r => r.rata_rata_kota), x ≤ qmax)) ∧
    stats dbS none = .ok (.vobj [("data", .vobj
      [("n_hari", .vnat 3), ("pm25_avg", .vrat 20), ("pm25_min", .vrat 10),
       ("pm25_max", .vrat 30)])]) := by
  refine ⟨?_, ?_, ?_⟩
  · intro he
    simp [stats, statsDict, he]
  · intro hne
    cases hvals : db.harian.map (fun r => r.rata_rata_kota) with
    | nil =>
        rw [List.map_eq_nil_iff] at hvals
        exact absurd hvals hne
    | cons v vs =>
        refine ⟨((v :: vs).foldl (· + ·) 0) / (db.harian.length : Rat),
          vs.foldl min v, vs.foldl max v, ?_, ?_, ?_, ?_, ?_, ?_⟩
        · simp [stats, statsDict, hvals]
        · have hlen : db.harian.length ≠ 0 := by
            intro h0
            exact hne (List.length_eq_zero.1 h0)
          rw [div_mul_cancel₀ _ (Nat.cast_ne_zero.2 hlen), List.sum_eq_foldl]
        · exact foldl_min_mem v vs
        · intro x hx
          exact foldl_min_le v vs x hx
        · exact foldl_max_mem v vs
        · intro x hx
          exact foldl_max_ge v vs x hx
  · norm_num [stats, statsDict, dbS, ingest, emptyDB, estimasiValid,
      runIngestTx, buildMetaRows, buildRow, upsertHarian, pS1, pS2, pS3]

/-- Witness for C8: the empty store reports count 0 and null aggregates. -/
theorem stats_spec_witness :
    emptyDB.harian = [] ∧
    stats emptyDB none = .ok (.vobj [("data", .vobj
      [("n_hari", .vnat 0), ("pm25_avg", .vnull), ("pm25_min", .vnull),
       ("pm25_max", .vnull)])]) :=
  ⟨rfl, (stats_spec emptyDB).1 rfl⟩

/-- C5 counterexample: a storage failure in the `latest` handler is not
caught at the handler boundary and not mapped to any response — the
exception escapes the handler — so it is false that every handler maps
storage errors to a 5xx response carrying the raw error text. -/
theorem latest_uncaught_storage_error :
    latest emptyDB (some "boom") = Except.error "boom" ∧
    ¬ ∃ v : Val, latest emptyDB (some "boom") = Except.ok v :=
  ⟨rfl, fun h => by
    obtain ⟨v, hv⟩ := h
    simp [latest] at hv⟩

/-- C5 (amended): only the ingest handler catches a storage error at the
handler boundary and maps it to a 500 response carrying the raw error
text; in the read handlers (latest, history, stats) the storage error
escapes the handler uncaught. -/
theorem storage_error_handler_boundary (db : DBState) (p : PayloadAggregat)
    (e : String) (hv : estimasiValid p = true) :
    (∀ f2, ingest db p (some e) f2 = (db, .serverError 500 e)) ∧
    (buildMetaRows p ≠ [] → ingest db p none (some e)
        = (db, .serverError 500 e)) ∧
    latest db (some e) = .error e ∧
    history db (some e) = .error e ∧
    stats db (some e) = .error e := by
  refine ⟨?_, ?_, rfl, rfl, rfl⟩
  · intro f2
    unfold ingest
    rw [if_pos hv]
    rfl
  · intro hm
    exact ingest_meta_failure db p e hv hm

/-- Witness for C5's amended statement, at the payload of date 7 and the
error text "boom". -/
theorem storage_error_handler_boundary_witness :
    estimasiValid pW = true ∧
    ((∀ f2, ingest emptyDB pW (some "boom") f2
        = (emptyDB, .serverError 500 "boom")) ∧
     (buildMetaRows pW ≠ [] → ingest emptyDB pW none (some "boom")
        = (emptyDB, .serverError 500 "boom")) ∧
     latest emptyDB (some "boom") = .error "boom" ∧
     history emptyDB (some "boom") = .error "boom" ∧
     stats emptyDB (some "boom") = .error "boom") :=
  ⟨by decide, storage_error_handler_boundary emptyDB pW "boom" (by decide)⟩
